import Mathlib

/-! Raycaster demo: a shallow embedding of the rendering core.

The development follows three translation units of the repository:

* `src/raycasterfiles/main.cpp`   (namespace `Main`): colour packing and the PPM writer;
* `src/src/gameloop.cpp`          (namespace `Gameloop`): colour packing, the clipping
  `draw_rectangle`, the map literal, the key handling, the minimap loop and the ray march;
* `src/raycasterfiles/rangefinder.cpp` (namespace `Rangefinder`): the asserting
  `draw_rectangle` used by its minimap loop.

Conventions of the embedding.

* `uint8_t`, `uint32_t` and `size_t` values are natural numbers; every operation that can
  wrap is followed by an explicit `% 2 ^ 32` or `% 2 ^ 64`.
* A `std::vector<uint32_t>` is a `List Nat`; `v[i] = c` is `store`, which faults when the
  index is not below the length (undefined behaviour in the source).
* A failed `assert`, an access outside an array and a float-to-integer conversion whose
  truncated value does not fit the target type are the three `Fault`s; code that can fault
  returns `Except Fault _`.
* `float` quantities are exact rationals; `cos` and `sin` are not modelled, so the ray march
  takes the successive values of `(t, cx, cy)` as an explicit list of samples.
* Code whose claims are stated over the reals (`handle_key`, `march_sample`, `truncF`) is
  written once for any field, with `cos` and `sin` (or their values) as parameters, and is
  instantiated at the reals with `Real.cos` and `Real.sin` in the theorems.
-/

/-- The ways in which the modelled code can stop without a result. -/
inductive Fault where
  | assertion
  | outOfRange
  | conversion
deriving DecidableEq, Repr

deriving instance DecidableEq for Except

/-- Counted loop `for (size_t i = 0; i < n; i++) body(i)` threading a state and stopping at
the first fault: iterations `0 .. n-1` run in increasing order. -/
def forRange {σ : Type} (n : Nat) (body : Nat → σ → Except Fault σ) (s : σ) : Except Fault σ :=
  match n with
  | 0 => .ok s
  | k + 1 => forRange k body s >>= body k

/-- The assignment `image[idx] = color` on a vector: defined only for `idx < image.size()`. -/
def store (image : List Nat) (idx color : Nat) : Except Fault (List Nat) :=
  if idx < image.length then .ok (image.set idx color) else .error .outOfRange

/-- Truncation toward zero of an exact rational (what a float-to-integer conversion keeps). -/
def truncQ (q : ℚ) : Int :=
  if 0 ≤ q then Int.floor q else Int.ceil q

/-- Conversion of a floating value to `size_t`: defined when the truncated value fits. -/
def toSizeT (q : ℚ) : Except Fault Nat :=
  if 0 ≤ truncQ q ∧ truncQ q < 2 ^ 64 then .ok (truncQ q).toNat else .error .conversion

/-- Conversion of a floating value to `int`: defined when the truncated value fits. -/
def toInt (q : ℚ) : Except Fault Int :=
  if -(2 ^ 31) ≤ truncQ q ∧ truncQ q < 2 ^ 31 then .ok (truncQ q) else .error .conversion

/-- Truncation toward zero in any ordered field with a floor: `truncQ` for exact reals. -/
def truncF {α : Type} [LinearOrderedField α] [FloorRing α] (q : α) : Int :=
  if 0 ≤ q then Int.floor q else Int.ceil q

namespace Main

/-- The function `packcolor` of main.cpp: `(a<<24) + (b<<16) + (g<<8) + r`, the `int` sum of
the promoted bytes converted to `uint32_t`, that is, reduced modulo `2^32`. -/
def packcolor (r g b : Nat) (a : Nat := 255) : Nat :=
  ((a <<< 24) + (b <<< 16) + (g <<< 8) + r) % 2 ^ 32

/-- The function `unpack_color` of main.cpp, returning `(r, g, b, a)`. -/
def unpack_color (color : Nat) : Nat × Nat × Nat × Nat :=
  ((color >>> 0) &&& 255, (color >>> 8) &&& 255, (color >>> 16) &&& 255, (color >>> 24) &&& 255)

/-- The bytes of a text fragment sent to the stream. -/
def textBytes (s : String) : List Nat :=
  s.toList.map Char.toNat

/-- The three bytes written for one pixel: `r`, `g`, `b` of `unpack_color`, alpha dropped. -/
def pixelBytes (color : Nat) : List Nat :=
  match unpack_color color with
  | (r, g, b, _) => [r, g, b]

/-- The pixel loop of `drop_ppm_image`: `for (i = 0; i < n; i++)` appending the bytes of
`image[i]` to what has been written so far. -/
def ppmBody (image : List Nat) (n : Nat) (out : List Nat) : Except Fault (List Nat) :=
  forRange n (fun i acc =>
    match image[i]? with
    | some color => .ok (acc ++ pixelBytes color)
    | none => .error .outOfRange) out

/-- The function `drop_ppm_image` of main.cpp, as the byte sequence sent to the stream. -/
def drop_ppm_image (image : List Nat) (width height : Nat) : Except Fault (List Nat) :=
  if image.length ≠ (width * height) % 2 ^ 64 then .error .assertion
  else
    ppmBody image ((width * height) % 2 ^ 64)
      (textBytes "P6\n" ++ textBytes (Nat.repr width) ++ textBytes " " ++
        textBytes (Nat.repr height) ++ textBytes "\n255\n")

end Main

namespace Gameloop

/-- The function `packcolor` of gameloop.cpp: `(a<<24) + (r<<16) + (g<<8) + b`, converted to
`uint32_t`. -/
def packcolor (r g b : Nat) (a : Nat := 255) : Nat :=
  ((a <<< 24) + (r <<< 16) + (g <<< 8) + b) % 2 ^ 32

/-- The function `unpack_color` of gameloop.cpp, returning `(r, g, b, a)`. -/
def unpack_color (color : Nat) : Nat × Nat × Nat × Nat :=
  ((color >>> 0) &&& 255, (color >>> 8) &&& 255, (color >>> 16) &&& 255, (color >>> 24) &&& 255)

/-- One iteration of the inner loop of `draw_rectangle`: the guard
`if (cx > image_width || cy >= image_height) continue;` and the write. -/
def drawCell (image_width image_height x_pos y_pos color i j : Nat) (image : List Nat) :
    Except Fault (List Nat) :=
  let cx := (x_pos + i) % 2 ^ 64
  let cy := (y_pos + j) % 2 ^ 64
  if cx > image_width ∨ cy ≥ image_height then .ok image
  else store image ((cx + cy * image_width) % 2 ^ 64) color

/-- The function `draw_rectangle` of gameloop.cpp. -/
def draw_rectangle (image : List Nat)
    (image_width image_height x_pos y_pos rect_width rect_height color : Nat) :
    Except Fault (List Nat) :=
  if image.length ≠ (image_width * image_height) % 2 ^ 64 then .error .assertion
  else
    forRange rect_width (fun i img =>
      forRange rect_height (drawCell image_width image_height x_pos y_pos color i) img) image

def window_width : Nat := 1024
def window_height : Nat := 512
def map_width : Nat := 16
def map_height : Nat := 16

/-- The array `map` of gameloop.cpp: 256 cell symbols followed by the terminating NUL. -/
def map : List Char :=
  ("0000222222220000" ++
   "1              0" ++
   "1   11 11111   0" ++
   "1     0        0" ++
   "0     0  1110000" ++
   "0     3        0" ++
   "0   10000      0" ++
   "0   0   11100  0" ++
   "0   0   0      0" ++
   "0   0   1  00000" ++
   "0       1      0" ++
   "2       1111   0" ++
   "0       0      0" ++
   "0 0000000      0" ++
   "0              0" ++
   "0002222222200000").toList ++ [Char.ofNat 0]

/-- The constant `rect_width = window_width/(map_width*2)`. -/
def rect_width : Nat := window_width / (map_width * 2)

/-- The constant `rect_height = window_height/map_height`. -/
def rect_height : Nat := window_height / map_height

/-- The index `int(cx) + int(cy)*map_width`, computed in `size_t` from two `int`s. -/
def cellIndex (c r : Int) : Nat :=
  ((c % 2 ^ 64).toNat + ((r % 2 ^ 64).toNat * map_width) % 2 ^ 64) % 2 ^ 64

/-- The wall test `map[int(cx)+int(cy)*map_width] != ' '` on truncated cell indices. -/
def wall_test (c r : Int) : Except Fault Bool :=
  match map[cellIndex c r]? with
  | some ch => .ok (ch != ' ')
  | none => .error .outOfRange

/-- The value `size_t column_height = window_height / t`. -/
def column_height (t : ℚ) : Except Fault Nat :=
  if t = 0 then .error .conversion else toSizeT ((window_height : ℚ) / t)

/-- The `size_t` expression `window_height/2 - column_height/2`. -/
def strip_top (ch : Nat) : Nat :=
  (window_height / 2 + 2 ^ 64 - (ch / 2) % 2 ^ 64) % 2 ^ 64

/-- The wall strip of screen column `i`: the `draw_rectangle` call of the 3D loop. -/
def wall_strip (framebuffer : List Nat) (i ch color : Nat) : Except Fault (List Nat) :=
  draw_rectangle framebuffer window_width window_height ((window_width / 2 + i) % 2 ^ 64)
    (strip_top ch) 1 ch color

/-- One cell of the minimap loop. -/
def minimapCell (j i : Nat) (framebuffer : List Nat) : Except Fault (List Nat) :=
  match map[(i + (j * map_width) % 2 ^ 64) % 2 ^ 64]? with
  | none => .error .outOfRange
  | some ch =>
    if ch = ' ' then .ok framebuffer
    else
      draw_rectangle framebuffer window_width window_height
        ((i * rect_width) % 2 ^ 64) ((j * rect_height) % 2 ^ 64)
        rect_width rect_height (packcolor 0 255 255)

/-- The minimap loop of `main`: rows `j`, then columns `i`. -/
def minimap (framebuffer : List Nat) : Except Fault (List Nat) :=
  forRange map_height (fun j fb => forRange map_width (minimapCell j) fb) framebuffer

/-- The floor-trace write of the ray march at the point `(cx, cy)`. -/
def floor_trace (framebuffer : List Nat) (cx cy : ℚ) : Except Fault (List Nat) :=
  toSizeT (cx * (rect_width : ℚ)) >>= fun pix_x =>
  toSizeT (cy * (rect_width : ℚ)) >>= fun pix_y =>
  store framebuffer ((pix_x + (pix_y * window_width) % 2 ^ 64) % 2 ^ 64) (packcolor 160 160 160)

/-- The march of screen column `i` over the successive samples `(t, cx, cy)`: the first
sample on a wall draws the strip and ends the march, every earlier sample leaves a floor
trace, and running out of samples (`t` reached 20) draws nothing more. -/
def march (i : Nat) : List (ℚ × ℚ × ℚ) → List Nat → Except Fault (List Nat)
  | [], framebuffer => .ok framebuffer
  | (t, cx, cy) :: rest, framebuffer =>
    toInt cx >>= fun c =>
    toInt cy >>= fun r =>
    wall_test c r >>= fun wall =>
    if wall then
      column_height t >>= fun ch => wall_strip framebuffer i ch (packcolor 0 255 255)
    else
      floor_trace framebuffer cx cy >>= fun fb => march i rest fb

/-- The values of `t`, `cx`, `cy` at iteration `k` of the march loop
`for (float t = 0; t < 20; t += .05)`: `t = k * 0.05`, `cx = player_x + t*cos(angle)`,
`cy = player_y + t*sin(angle)`, with the values of `cos(angle)` and `sin(angle)` given. -/
def march_sample {α : Type} [Field α] (player_x player_y cosA sinA : α) (k : Nat) : α × α × α :=
  let t := (k : α) * (1 / 20)
  (t, player_x + t * cosA, player_y + t * sinA)

/-- The player state `player_x`, `player_y`, `player_a` of `main`. -/
structure Pose (α : Type) where
  player_x : α
  player_y : α
  player_a : α

/-- The key codes distinguished by the `switch` on `event.key.keysym.sym`. -/
inductive Key where
  | SDLK_w
  | SDLK_s
  | SDLK_a
  | SDLK_d
  | other
deriving DecidableEq, Repr

/-- The `switch (event.key.keysym.sym)` of the event loop, statement by statement. -/
def handle_key {α : Type} [Field α] (cos sin : α → α) (key : Key) (p : Pose α) : Pose α :=
  match key with
  | .SDLK_w =>
    let p1 := { p with player_x := p.player_x + cos p.player_a * (1 / 2) }
    { p1 with player_y := p1.player_y + sin p1.player_a * (1 / 2) }
  | .SDLK_s =>
    let p1 := { p with player_y := p.player_y + 1 / 2 }
    let p2 := { p1 with player_x := p1.player_x - cos p1.player_a * (1 / 2) }
    { p2 with player_y := p2.player_y - sin p2.player_a * (1 / 2) }
  | .SDLK_a => { p with player_a := p.player_a - 1 / 20 }
  | .SDLK_d => { p with player_a := p.player_a + 1 / 20 }
  | .other => p

end Gameloop

namespace Rangefinder

/-- One iteration of the inner loop of `draw_rectangle` of rangefinder.cpp:
`assert(cx<image_width && cy<image_height);` and the write. -/
def drawCell (image_width image_height x_pos y_pos color i j : Nat) (image : List Nat) :
    Except Fault (List Nat) :=
  let cx := (x_pos + i) % 2 ^ 64
  let cy := (y_pos + j) % 2 ^ 64
  if cx < image_width ∧ cy < image_height then
    store image ((cx + cy * image_width) % 2 ^ 64) color
  else .error .assertion

/-- The function `draw_rectangle` of rangefinder.cpp. -/
def draw_rectangle (image : List Nat)
    (image_width image_height x_pos y_pos rect_width rect_height color : Nat) :
    Except Fault (List Nat) :=
  if image.length ≠ (image_width * image_height) % 2 ^ 64 then .error .assertion
  else
    forRange rect_width (fun i img =>
      forRange rect_height (drawCell image_width image_height x_pos y_pos color i) img) image

end Rangefinder

/-- `img` is `img0` repainted with `c` exactly on the indices in `S`. -/
def Painted (img0 img : List Nat) (c : Nat) (S : Nat → Prop) : Prop :=
  img.length = img0.length ∧
    ∀ k, k < img0.length → (S k → img[k]? = some c) ∧ (¬ S k → img[k]? = img0[k]?)

/-- The cell `(i, j)` of a `draw_rectangle` call passes the guard and is written at index `k`. -/
def Gameloop.Hits (image_width image_height x_pos y_pos i j k : Nat) : Prop :=
  (x_pos + i) % 2 ^ 64 ≤ image_width ∧ (y_pos + j) % 2 ^ 64 < image_height ∧
    ((x_pos + i) % 2 ^ 64 + (y_pos + j) % 2 ^ 64 * image_width) % 2 ^ 64 = k

/-- The pixels of the minimap block of cell `(i, j)`, when that cell is not a space. -/
def Gameloop.Block (j i k : Nat) : Prop :=
  Gameloop.map[i + j * 16]? ≠ some ' ' ∧
    ∃ a, a < 32 ∧ ∃ b, b < 32 ∧ Gameloop.Hits 1024 512 (i * 32) (j * 32) a b k

/-- What the stream holds after the first `m` pixels. -/
def Main.BodyUpTo (image out : List Nat) (m : Nat) (acc : List Nat) : Prop :=
  ∃ body : List Nat, acc = out ++ body ∧ body.length = 3 * m ∧
    ∀ i color, i < m → image[i]? = some color →
      body[3 * i]? = some (Main.unpack_color color).1 ∧
      body[3 * i + 1]? = some (Main.unpack_color color).2.1 ∧
      body[3 * i + 2]? = some (Main.unpack_color color).2.2.1

/-! ## Shared lemmas -/

theorem and_255 (x : Nat) : x &&& 255 = x % 256 :=
  Nat.and_pow_two_sub_one_eq_mod x 8

theorem Painted.refl (img : List Nat) (c : Nat) (S : Nat → Prop) (hS : ∀ k, ¬ S k) :
    Painted img img c S :=
  ⟨rfl, fun k _ => ⟨fun h => absurd h (hS k), fun _ => rfl⟩⟩

theorem Painted.congr {img0 img : List Nat} {c : Nat} {S T : Nat → Prop}
    (h : Painted img0 img c S) (hST : ∀ k, k < img0.length → (S k ↔ T k)) :
    Painted img0 img c T :=
  ⟨h.1, fun k hk => ⟨fun ht => (h.2 k hk).1 ((hST k hk).2 ht),
    fun hnt => (h.2 k hk).2 (fun hs => hnt ((hST k hk).1 hs))⟩⟩

theorem Painted.trans {img0 img1 img2 : List Nat} {c : Nat} {S T : Nat → Prop}
    (h1 : Painted img0 img1 c S) (h2 : Painted img1 img2 c T) :
    Painted img0 img2 c (fun k => S k ∨ T k) := by
  refine ⟨h2.1.trans h1.1, fun k hk => ?_⟩
  have hk1 : k < img1.length := h1.1 ▸ hk
  constructor
  · intro hst
    by_cases ht : T k
    · exact (h2.2 k hk1).1 ht
    · rw [(h2.2 k hk1).2 ht]
      rcases hst with hs | ht'
      · exact (h1.2 k hk).1 hs
      · exact absurd ht' ht
  · intro hn
    rw [(h2.2 k hk1).2 (fun ht => hn (Or.inr ht)), (h1.2 k hk).2 (fun hs => hn (Or.inl hs))]

theorem Painted.set (img : List Nat) (c idx : Nat) (h : idx < img.length) :
    Painted img (img.set idx c) c (fun k => k = idx) := by
  refine ⟨List.length_set .., fun k _ => ⟨?_, ?_⟩⟩
  · rintro rfl
    simp [List.getElem?_set, h]
  · intro hne
    rw [List.getElem?_set_ne (fun e => hne e.symm)]

theorem forRange_succ {σ : Type} (n : Nat) (body : Nat → σ → Except Fault σ) (s : σ) :
    forRange (n + 1) body s = forRange n body s >>= body n := rfl

/-- A loop whose body never faults on states satisfying an invariant returns a state. -/
theorem forRange_total {σ : Type} (R : σ → Prop) (n : Nat) (body : Nat → σ → Except Fault σ)
    (s0 : σ) (h0 : R s0)
    (hstep : ∀ i s, i < n → R s → ∃ s', body i s = .ok s' ∧ R s') :
    ∃ s', forRange n body s0 = .ok s' ∧ R s' := by
  induction n with
  | zero => exact ⟨s0, rfl, h0⟩
  | succ m ih =>
    obtain ⟨s1, e1, r1⟩ := ih (fun i s hi hs => hstep i s (Nat.lt_succ_of_lt hi) hs)
    obtain ⟨s2, e2, r2⟩ := hstep m s1 (Nat.lt_succ_self m) r1
    exact ⟨s2, by rw [forRange_succ, e1]; exact e2, r2⟩

/-- A loop each of whose iterations repaints the set `T i` repaints their union. -/
theorem forRange_painted (c : Nat) (T : Nat → Nat → Prop) (n : Nat)
    (body : Nat → List Nat → Except Fault (List Nat))
    (hstep : ∀ i s s', i < n → body i s = .ok s' → Painted s s' c (T i))
    (s0 s1 : List Nat) (h : forRange n body s0 = .ok s1) :
    Painted s0 s1 c (fun k => ∃ i, i < n ∧ T i k) := by
  induction n generalizing s1 with
  | zero =>
    cases h
    exact Painted.refl _ _ _ (fun k ⟨_, hi, _⟩ => Nat.not_lt_zero _ hi)
  | succ m ih =>
    rw [forRange_succ] at h
    cases hm : forRange m body s0 with
    | error e => rw [hm] at h; cases h
    | ok sm =>
      rw [hm] at h
      have p1 := ih (fun i s s' hi => hstep i s s' (Nat.lt_succ_of_lt hi)) sm hm
      have p2 := hstep m sm s1 (Nat.lt_succ_self m) h
      refine (p1.trans p2).congr (fun k _ => ⟨?_, ?_⟩)
      · rintro (⟨i, hi, ht⟩ | ht)
        · exact ⟨i, Nat.lt_succ_of_lt hi, ht⟩
        · exact ⟨m, Nat.lt_succ_self m, ht⟩
      · rintro ⟨i, hi, ht⟩
        rcases Nat.lt_succ_iff_lt_or_eq.1 hi with hlt | rfl
        · exact Or.inl ⟨i, hlt, ht⟩
        · exact Or.inr ht

theorem forRange_fault {σ : Type} (f : Fault) (n : Nat) (body : Nat → σ → Except Fault σ)
    (hbody : ∀ i s e, body i s = .error e → e = f) (s : σ) (e : Fault)
    (h : forRange n body s = .error e) : e = f := by
  induction n generalizing e with
  | zero => cases h
  | succ m ih =>
    rw [forRange_succ] at h
    cases hm : forRange m body s with
    | error e' =>
      rw [hm] at h
      cases h
      exact ih _ hm
    | ok sm =>
      rw [hm] at h
      exact hbody m sm e h

namespace Gameloop

theorem draw_rectangle_fault (img : List Nat) (W H x y rw rh c : Nat) (e : Fault)
    (hlen : img.length = (W * H) % 2 ^ 64)
    (h : draw_rectangle img W H x y rw rh c = .error e) : e = .outOfRange := by
  unfold draw_rectangle at h
  rw [if_neg (not_not.2 hlen)] at h
  refine forRange_fault _ rw _ ?_ img e h
  intro i s e' hi
  refine forRange_fault _ rh _ ?_ s e' hi
  intro j t e'' hj
  unfold drawCell store at hj
  simp only at hj
  split at hj
  · cases hj
  · split at hj
    · cases hj
    · cases hj; rfl

end Gameloop

/-! ## The rectangle blit of gameloop.cpp -/

namespace Gameloop

theorem drawCell_painted (W H x y c i j : Nat) (s s' : List Nat)
    (h : drawCell W H x y c i j s = .ok s') : Painted s s' c (Hits W H x y i j) := by
  unfold drawCell at h
  simp only at h
  split at h
  · rename_i hg
    cases h
    refine Painted.refl _ _ _ (fun k hk => ?_)
    unfold Hits at hk
    omega
  · rename_i hg
    unfold store at h
    split at h
    · rename_i hlt
      cases h
      refine (Painted.set s c _ hlt).congr (fun k _ => ?_)
      unfold Hits
      constructor
      · rintro rfl
        omega
      · rintro ⟨_, _, e⟩
        exact e.symm
    · cases h

theorem drawCell_total (W H x y c i j : Nat) (s : List Nat)
    (hb : ∀ k, Hits W H x y i j k → k < s.length) :
    ∃ s', drawCell W H x y c i j s = .ok s' ∧ s'.length = s.length := by
  unfold drawCell
  simp only
  split
  · exact ⟨s, rfl, rfl⟩
  · rename_i hg
    have := hb _ ⟨by omega, by omega, rfl⟩
    unfold store
    rw [if_pos this]
    exact ⟨_, rfl, List.length_set ..⟩

/-- Whenever `draw_rectangle` returns, it has repainted exactly the cells that pass its guard. -/
theorem draw_rectangle_painted (img img' : List Nat) (W H x y rw rh c : Nat)
    (h : draw_rectangle img W H x y rw rh c = .ok img') :
    img.length = (W * H) % 2 ^ 64 ∧
    Painted img img' c (fun k => ∃ i, i < rw ∧ ∃ j, j < rh ∧ Hits W H x y i j k) := by
  unfold draw_rectangle at h
  split at h
  · cases h
  · rename_i ha
    refine ⟨not_not.1 ha, ?_⟩
    refine forRange_painted c (fun i k => ∃ j, j < rh ∧ Hits W H x y i j k) rw _ ?_ img img' h
    intro i s s' _ hi
    exact forRange_painted c (fun j k => Hits W H x y i j k) rh _
      (fun j t t' _ ht => drawCell_painted W H x y c i j t t' ht) s s' hi

/-- If no guarded cell lands outside the buffer, `draw_rectangle` returns. -/
theorem draw_rectangle_total (img : List Nat) (W H x y rw rh c : Nat)
    (hlen : img.length = (W * H) % 2 ^ 64)
    (hb : ∀ i j k, i < rw → j < rh → Hits W H x y i j k → k < img.length) :
    ∃ img', draw_rectangle img W H x y rw rh c = .ok img' ∧
      Painted img img' c (fun k => ∃ i, i < rw ∧ ∃ j, j < rh ∧ Hits W H x y i j k) := by
  have key : ∃ img', draw_rectangle img W H x y rw rh c = .ok img' ∧ img'.length = img.length := by
    unfold draw_rectangle
    rw [if_neg (not_not.2 hlen)]
    refine forRange_total (fun s => s.length = img.length) rw _ img rfl ?_
    intro i s hi hs
    refine forRange_total (fun t => t.length = img.length) rh _ s hs ?_
    intro j t hj ht
    obtain ⟨t', e, hl⟩ := drawCell_total W H x y c i j t (fun k hk => ht ▸ hb i j k hi hj hk)
    exact ⟨t', e, hl.trans ht⟩
  obtain ⟨img', e, _⟩ := key
  exact ⟨img', e, (draw_rectangle_painted img img' W H x y rw rh c e).2⟩

end Gameloop

/-! ## Float-to-integer conversions -/

theorem truncQ_of_nonneg (q : ℚ) (h : 0 ≤ q) : truncQ q = Int.floor q := by
  unfold truncQ
  rw [if_pos h]

theorem toSizeT_of_nonneg (q : ℚ) (h : 0 ≤ q) (hlt : Int.floor q < 2 ^ 64) :
    toSizeT q = .ok (Int.floor q).toNat := by
  unfold toSizeT
  rw [truncQ_of_nonneg q h, if_pos ⟨Int.floor_nonneg.2 h, hlt⟩]

theorem toSizeT_ok (q : ℚ) (h : 0 ≤ q) (n : Nat) (hn : toSizeT q = .ok n) :
    Int.floor q < 2 ^ 64 ∧ n = (Int.floor q).toNat := by
  unfold toSizeT at hn
  rw [truncQ_of_nonneg q h] at hn
  split at hn
  · rename_i hc
    cases hn
    exact ⟨hc.2, rfl⟩
  · cases hn

theorem two_pow_64 : (2 : Nat) ^ 64 = 18446744073709551616 := by norm_num

/-- A loop whose body preserves an indexed invariant without faulting returns a state
satisfying the invariant at the bound. -/
theorem forRange_inv {σ : Type} (P : Nat → σ → Prop) (n : Nat)
    (body : Nat → σ → Except Fault σ) (s0 : σ) (h0 : P 0 s0)
    (hstep : ∀ i s, i < n → P i s → ∃ s', body i s = .ok s' ∧ P (i + 1) s') :
    ∃ s', forRange n body s0 = .ok s' ∧ P n s' := by
  induction n with
  | zero => exact ⟨s0, rfl, h0⟩
  | succ m ih =>
    obtain ⟨s1, e1, r1⟩ := ih (fun i s hi hs => hstep i s (Nat.lt_succ_of_lt hi) hs)
    obtain ⟨s2, e2, r2⟩ := hstep m s1 (Nat.lt_succ_self m) r1
    exact ⟨s2, by rw [forRange_succ, e1]; exact e2, r2⟩

/-- A loop whose iterations never fault on buffers of the right length, each repainting the
set `T i`, returns a buffer repainted on the union of the `T i`. -/
theorem forRange_total_painted (c : Nat) (T : Nat → Nat → Prop) (n : Nat)
    (body : Nat → List Nat → Except Fault (List Nat)) (s0 : List Nat)
    (hstep : ∀ i s, i < n → s.length = s0.length →
      ∃ s', body i s = .ok s' ∧ Painted s s' c (T i)) :
    ∃ s1, forRange n body s0 = .ok s1 ∧ Painted s0 s1 c (fun k => ∃ i, i < n ∧ T i k) := by
  induction n with
  | zero => exact ⟨s0, rfl, Painted.refl _ _ _ (fun k ⟨_, hi, _⟩ => Nat.not_lt_zero _ hi)⟩
  | succ m ih =>
    obtain ⟨sm, em, pm⟩ := ih (fun i s hi hs => hstep i s (Nat.lt_succ_of_lt hi) hs)
    obtain ⟨s1, e1, p1⟩ := hstep m sm (Nat.lt_succ_self m) pm.1
    refine ⟨s1, by rw [forRange_succ, em]; exact e1, (pm.trans p1).congr (fun k _ => ⟨?_, ?_⟩)⟩
    · rintro (⟨i, hi, ht⟩ | ht)
      · exact ⟨i, Nat.lt_succ_of_lt hi, ht⟩
      · exact ⟨m, Nat.lt_succ_self m, ht⟩
    · rintro ⟨i, hi, ht⟩
      rcases Nat.lt_succ_iff_lt_or_eq.1 hi with hlt | rfl
      · exact Or.inl ⟨i, hlt, ht⟩
      · exact Or.inr ht

theorem toInt_of_cell (q : ℚ) (h0 : 0 ≤ q) (h1 : q < 16) : toInt q = .ok (truncQ q) := by
  have hf : Int.floor q < 16 := Int.floor_lt.2 (by exact_mod_cast h1)
  have hn : 0 ≤ Int.floor q := Int.floor_nonneg.2 h0
  unfold toInt
  rw [truncQ_of_nonneg q h0, if_pos ⟨by omega, by omega⟩]

namespace Main

theorem unpack_pack_bytes (r g b a : Nat)
    (hr : r < 256) (hg : g < 256) (hb : b < 256) (ha : a < 256) :
    unpack_color (packcolor r g b a) = (r, g, b, a) := by
  simp only [unpack_color, packcolor, and_255, Nat.shiftLeft_eq, Nat.shiftRight_eq_div_pow]
  refine Prod.ext ?_ (Prod.ext ?_ (Prod.ext ?_ ?_)) <;> simp only <;> omega

end Main

/-! ## Colour packing and `draw_rectangle` (C1 to C4) -/

/-- C1: in main.cpp (and the identical copy in rangefinder.cpp) the packed value is a
32-bit value and `unpack_color` undoes `packcolor`: for all bytes `r`, `g`, `b`, `a`,
`unpack_color (packcolor r g b a) = (r, g, b, a)`. -/
theorem Main.unpack_color_packcolor (r g b a : Nat)
    (hr : r < 256) (hg : g < 256) (hb : b < 256) (ha : a < 256) :
    Main.packcolor r g b a < 2 ^ 32 ∧
      Main.unpack_color (Main.packcolor r g b a) = (r, g, b, a) :=
  ⟨Nat.mod_lt _ (by norm_num), Main.unpack_pack_bytes r g b a hr hg hb ha⟩

theorem Main.unpack_color_packcolor_witness :
    Main.packcolor 10 20 30 255 < 2 ^ 32 ∧
      Main.unpack_color (Main.packcolor 10 20 30 255) = (10, 20, 30, 255) :=
  Main.unpack_color_packcolor 10 20 30 255 (by decide) (by decide) (by decide) (by decide)

/-- C2: evaluation of gameloop.cpp at the bytes `(1, 2, 3, 4)`: `packcolor` puts red in bits
16..23 and blue in bits 0..7 although its comment documents red as the lowest byte, so
`unpack_color` returns red and blue exchanged, `(3, 2, 1, 4)`, and not `(1, 2, 3, 4)`. -/
theorem Gameloop.unpack_color_packcolor_swapped :
    Gameloop.unpack_color (Gameloop.packcolor 1 2 3 4) = (3, 2, 1, 4) := by
  decide

/-- C3: evaluation of `draw_rectangle` of gameloop.cpp on a 2x2 buffer: the guard `cx > image_width`
lets the column `cx = image_width` through, so a 1x1 rectangle at `(2, 0)` repaints pixel
`(0, 1)` of the next row, and a 1x1 rectangle at `(2, 1)` writes at index `4 = W*H`,
past the end of the buffer. -/
theorem Gameloop.draw_rectangle_column_at_width :
    Gameloop.draw_rectangle [0, 0, 0, 0] 2 2 2 0 1 1 7 = .ok [0, 0, 7, 0] ∧
      Gameloop.draw_rectangle [0, 0, 0, 0] 2 2 2 1 1 1 7 = .error .outOfRange := by
  decide

/-- C4: `draw_rectangle` of gameloop.cpp fills the visible part of the rectangle: on a buffer
of length `W*H`, with `x_pos + rect_width` and `y_pos + rect_height` not overflowing
`size_t`, a call that performs no write past the end of the buffer returns a buffer of
length `W*H` in which every pixel `(px, py)` of the rectangle with `px < W`, `py < H`
equals `color`. -/
theorem Gameloop.draw_rectangle_fills (img : List Nat) (W H x y rw rh c : Nat)
    (hlen : img.length = W * H) (hfit : img.length < 2 ^ 64)
    (hx : x + rw < 2 ^ 64) (hy : y + rh < 2 ^ 64)
    (hsafe : Gameloop.draw_rectangle img W H x y rw rh c ≠ .error .outOfRange) :
    ∃ img', Gameloop.draw_rectangle img W H x y rw rh c = .ok img' ∧
      img'.length = W * H ∧
      ∀ px py, px < W → py < H → x ≤ px → px < x + rw → y ≤ py → py < y + rh →
        img'[px + py * W]? = some c := by
  have hmod : img.length = (W * H) % 2 ^ 64 := by omega
  cases hres : Gameloop.draw_rectangle img W H x y rw rh c with
  | error e =>
    exact absurd (Gameloop.draw_rectangle_fault img W H x y rw rh c e hmod hres ▸ hres) hsafe
  | ok img' =>
    obtain ⟨_, hp⟩ := Gameloop.draw_rectangle_painted img img' W H x y rw rh c hres
    refine ⟨img', rfl, hp.1.trans hlen, ?_⟩
    intro px py hpx hpy hx1 hx2 hy1 hy2
    have hmul : (py + 1) * W ≤ H * W := Nat.mul_le_mul_right W hpy
    have hk : px + py * W < img.length := by
      rw [hlen, Nat.mul_comm W H]
      nlinarith
    refine (hp.2 _ hk).1 ⟨px - x, by omega, py - y, by omega, ?_⟩
    unfold Gameloop.Hits
    have e1 : x + (px - x) = px := by omega
    have e2 : y + (py - y) = py := by omega
    rw [e1, e2, Nat.mod_eq_of_lt (show px < 2 ^ 64 by omega),
      Nat.mod_eq_of_lt (show py < 2 ^ 64 by omega)]
    refine ⟨by omega, hpy, Nat.mod_eq_of_lt (by omega)⟩

theorem Gameloop.draw_rectangle_fills_witness :
    ∃ img', Gameloop.draw_rectangle [0, 0, 0, 0] 2 2 1 0 1 2 7 = .ok img' ∧
      img'.length = 2 * 2 ∧
      ∀ px py, px < 2 → py < 2 → 1 ≤ px → px < 1 + 1 → 0 ≤ py → py < 0 + 2 →
        img'[px + py * 2]? = some 7 :=
  Gameloop.draw_rectangle_fills [0, 0, 0, 0] 2 2 1 0 1 2 7 (by decide) (by decide)
    (by decide) (by decide) (by decide)

/-! ## The wall test (C5) -/

namespace Gameloop

set_option maxRecDepth 100000 in
/-- C5, counterexample: the cell indices `(17, 0)` lie outside the map, yet the wall test reads
`map[17]`, an open cell of row 1, and reports no wall; the indices `(0, 17)` make it read
`map[272]`, outside the 257-byte array. -/
theorem wall_test_outside_map :
    wall_test 17 0 = .ok false ∧ wall_test 0 17 = .error .outOfRange := by
  decide

set_option maxRecDepth 100000 in
theorem map_length : map.length = 257 := by decide

theorem cellIndex_eq (c r : Int) :
    (cellIndex c r : Int) = (c + r * 16) % 2 ^ 64 ∧
      cellIndex c r = ((c + r * 16) % 2 ^ 64).toNat := by
  unfold cellIndex map_width
  omega

/-- C5, amended: the wall test of gameloop.cpp has no bounds check. For every pair of
truncated cell indices `(c, r)`, inside the map or not, it reads the flattened index
`k = (c + r*16) mod 2^64` (the `size_t` value of `int(cx) + int(cy)*16`): for `k <= 256` it
reports whether the symbol stored at `map[k]` differs from a space, whichever cell that is,
and for `k > 256` the access is outside the array; cell indices inside `[0,16) x [0,16)`
give `k = c + 16 r < 256`, an access inside the map. -/
theorem wall_test_unchecked (c r : Int) :
    (cellIndex c r : Int) = (c + r * 16) % 2 ^ 64 ∧
    (((c + r * 16) % 2 ^ 64).toNat < 257 →
      ∃ ch, map[((c + r * 16) % 2 ^ 64).toNat]? = some ch ∧
        wall_test c r = .ok (ch != ' ')) ∧
    (257 ≤ ((c + r * 16) % 2 ^ 64).toNat → wall_test c r = .error .outOfRange) ∧
    (0 ≤ c → c < 16 → 0 ≤ r → r < 16 →
      ((c + r * 16) % 2 ^ 64).toNat = (c + r * 16).toNat ∧ (c + r * 16).toNat < 256) := by
  obtain ⟨e1, e2⟩ := cellIndex_eq c r
  refine ⟨e1, fun h => ?_, fun h => ?_, fun h1 h2 h3 h4 => by omega⟩
  · have hlt : ((c + r * 16) % 2 ^ 64).toNat < map.length := by rw [map_length]; exact h
    refine ⟨map[((c + r * 16) % 2 ^ 64).toNat], List.getElem?_eq_getElem hlt, ?_⟩
    unfold wall_test
    rw [e2, List.getElem?_eq_getElem hlt]
  · have hge : map.length ≤ ((c + r * 16) % 2 ^ 64).toNat := by rw [map_length]; exact h
    unfold wall_test
    rw [e2, List.getElem?_eq_none hge]

set_option maxRecDepth 100000 in
theorem wall_test_unchecked_witness :
    (∃ ch, map[(((17 : Int) + 0 * 16) % 2 ^ 64).toNat]? = some ch ∧
      wall_test 17 0 = .ok (ch != ' ')) ∧
    (∃ ch, map[(((-1 : Int) + 1 * 16) % 2 ^ 64).toNat]? = some ch ∧
      wall_test (-1) 1 = .ok (ch != ' ')) ∧
    wall_test 0 17 = .error .outOfRange ∧
    ((((3 : Int) + 4 * 16) % 2 ^ 64).toNat = ((3 : Int) + 4 * 16).toNat ∧
      ((3 : Int) + 4 * 16).toNat < 256) :=
  ⟨(wall_test_unchecked 17 0).2.1 (by decide),
    (wall_test_unchecked (-1) 1).2.1 (by decide),
    (wall_test_unchecked 0 17).2.2.1 (by decide),
    (wall_test_unchecked 3 4).2.2.2 (by decide) (by decide) (by decide) (by decide)⟩

end Gameloop

/-! ## The PPM writer (C6) -/

namespace Main

theorem textBytes_append (s t : String) : textBytes (s ++ t) = textBytes s ++ textBytes t := by
  unfold textBytes
  rw [String.toList, String.data_append, List.map_append]
  rfl

theorem ppmBody_spec (image out : List Nat) (n : Nat) (hn : n ≤ image.length) :
    ∃ acc, ppmBody image n out = .ok acc ∧ BodyUpTo image out n acc := by
  unfold ppmBody
  refine forRange_inv (BodyUpTo image out) n _ out ⟨[], by simp, rfl, by omega⟩ ?_
  rintro m acc hm ⟨body, rfl, hl, hb⟩
  have hlt : m < image.length := by omega
  rw [List.getElem?_eq_getElem hlt]
  refine ⟨_, rfl, body ++ pixelBytes image[m], by rw [List.append_assoc], ?_, ?_⟩
  · rw [List.length_append, hl]
    rfl
  · intro i color hi hc
    rcases Nat.lt_succ_iff_lt_or_eq.1 hi with hlt' | rfl
    · obtain ⟨h0, h1, h2⟩ := hb i color hlt' hc
      rw [List.getElem?_append_left (by omega), List.getElem?_append_left (by omega),
        List.getElem?_append_left (by omega)]
      exact ⟨h0, h1, h2⟩
    · rw [List.getElem?_eq_getElem hlt] at hc
      cases hc
      rw [List.getElem?_append_right (by omega), List.getElem?_append_right (by omega),
        List.getElem?_append_right (by omega), hl]
      have e0 : 3 * i - 3 * i = 0 := by omega
      have e1 : 3 * i + 1 - 3 * i = 1 := by omega
      have e2 : 3 * i + 2 - 3 * i = 2 := by omega
      rw [e0, e1, e2]
      exact ⟨rfl, rfl, rfl⟩

/-- C6: for an image of length `W*H`, `drop_ppm_image` of main.cpp emits the ASCII header
`P6`, newline, `W`, space, `H`, newline, `255`, newline (sizes in decimal) followed by
exactly `3*W*H` bytes, where bytes `3i`, `3i+1`, `3i+2` are the `r`, `g`, `b` that
`packcolor` stored in pixel `i` (alpha dropped) and nothing follows; and the 2x2 image
filled with `packcolor(10,20,30,255)` gives the body `10,20,30` four times after the
header `P6\n2 2\n255\n`. -/
theorem drop_ppm_image_bytes (image : List Nat) (W H : Nat)
    (hlen : image.length = W * H) (hfit : image.length < 2 ^ 64) :
    (∃ body : List Nat,
      drop_ppm_image image W H =
        .ok (textBytes ("P6\n" ++ Nat.repr W ++ " " ++ Nat.repr H ++ "\n255\n") ++ body) ∧
      body.length = 3 * (W * H) ∧
      ∀ i r g b a, i < W * H → r < 256 → g < 256 → b < 256 → a < 256 →
        image[i]? = some (packcolor r g b a) →
        body[3 * i]? = some r ∧ body[3 * i + 1]? = some g ∧ body[3 * i + 2]? = some b) ∧
    drop_ppm_image (List.replicate (2 * 2) (packcolor 10 20 30 255)) 2 2 =
      .ok ([80, 54, 10, 50, 32, 50, 10, 50, 53, 53, 10] ++
        [10, 20, 30, 10, 20, 30, 10, 20, 30, 10, 20, 30]) := by
  refine ⟨?_, by decide⟩
  have hmod : (W * H) % 2 ^ 64 = W * H := Nat.mod_eq_of_lt (by omega)
  unfold drop_ppm_image
  rw [hmod, if_neg (not_not.2 hlen)]
  obtain ⟨acc, e, body, rfl, hl, hb⟩ := ppmBody_spec image
    (textBytes "P6\n" ++ textBytes (Nat.repr W) ++ textBytes " " ++
      textBytes (Nat.repr H) ++ textBytes "\n255\n") (W * H) (by omega)
  refine ⟨body, ?_, hl, ?_⟩
  · rw [e, textBytes_append, textBytes_append, textBytes_append, textBytes_append]
  · intro i r g b a hi hr hg hb' ha hc
    obtain ⟨h0, h1, h2⟩ := hb i _ hi hc
    rw [unpack_pack_bytes r g b a hr hg hb' ha] at h0 h1 h2
    exact ⟨h0, h1, h2⟩

theorem drop_ppm_image_bytes_witness :
    (∃ body : List Nat,
      drop_ppm_image [packcolor 1 2 3 4, packcolor 5 6 7 8] 2 1 =
        .ok (textBytes ("P6\n" ++ Nat.repr 2 ++ " " ++ Nat.repr 1 ++ "\n255\n") ++ body) ∧
      body.length = 3 * (2 * 1) ∧
      ∀ i r g b a, i < 2 * 1 → r < 256 → g < 256 → b < 256 → a < 256 →
        [packcolor 1 2 3 4, packcolor 5 6 7 8][i]? = some (packcolor r g b a) →
        body[3 * i]? = some r ∧ body[3 * i + 1]? = some g ∧ body[3 * i + 2]? = some b) ∧
    drop_ppm_image (List.replicate (2 * 2) (packcolor 10 20 30 255)) 2 2 =
      .ok ([80, 54, 10, 50, 32, 50, 10, 50, 53, 53, 10] ++
        [10, 20, 30, 10, 20, 30, 10, 20, 30, 10, 20, 30]) :=
  drop_ppm_image_bytes [packcolor 1 2 3 4, packcolor 5 6 7 8] 2 1 (by decide) (by decide)

end Main

/-! ## Column height (C7) -/

namespace Gameloop

theorem column_height_of_pos (t : ℚ) (ht : 0 < t) (h : Int.floor (512 / t) < 2 ^ 64) :
    column_height t = .ok (Int.floor (512 / t)).toNat := by
  unfold column_height window_height
  rw [if_neg (ne_of_gt ht)]
  push_cast
  exact toSizeT_of_nonneg _ (by positivity) h

theorem column_height_at_15 : column_height 15 = .ok 34 := by
  have f1 : Int.floor ((512 : ℚ) / 15) = 34 := by
    rw [Int.floor_eq_iff]; norm_num
  rw [column_height_of_pos 15 (by norm_num) (by rw [f1]; norm_num), f1]; rfl

theorem column_height_at_15_05 : column_height (301 / 20) = .ok 34 := by
  have f2 : Int.floor ((512 : ℚ) / (301 / 20)) = 34 := by
    rw [Int.floor_eq_iff]; norm_num
  rw [column_height_of_pos _ (by norm_num) (by rw [f2]; norm_num), f2]; rfl

/-- C7, counterexample: the march distances `15 < 15.05 < 20` both give column height 34, so
the height is not strictly decreasing in the distance. -/
theorem column_height_not_strict :
    (0 : ℚ) < 15 ∧ (15 : ℚ) < 301 / 20 ∧ (301 / 20 : ℚ) < 20 ∧
      column_height 15 = .ok 34 ∧ column_height (301 / 20) = .ok 34 :=
  ⟨by norm_num, by norm_num, by norm_num, column_height_at_15, column_height_at_15_05⟩

/-- C7, amended: `column_height = trunc(512 / t)` is weakly decreasing in the hit distance:
for `0 < t1 < t2`, when the height at `t1` is `h1` (so `h1 = trunc(512 / t1)`), the height
at `t2` is defined, equals `trunc(512 / t2)` and is at most `h1`. -/
theorem column_height_antitone (t1 t2 : ℚ) (h1 : Nat)
    (ht1 : 0 < t1) (ht12 : t1 < t2)
    (hc : column_height t1 = .ok h1) :
    (h1 : Int) = truncQ (512 / t1) ∧
      ∃ h2 : Nat, column_height t2 = .ok h2 ∧ (h2 : Int) = truncQ (512 / t2) ∧ h2 ≤ h1 := by
  have ht2pos : 0 < t2 := lt_trans ht1 ht12
  have hq1 : (0 : ℚ) ≤ 512 / t1 := by positivity
  have hq2 : (0 : ℚ) ≤ 512 / t2 := by positivity
  have hle : (512 : ℚ) / t2 ≤ 512 / t1 :=
    div_le_div_of_nonneg_left (by norm_num) ht1 (le_of_lt ht12)
  have hfl : Int.floor ((512 : ℚ) / t2) ≤ Int.floor ((512 : ℚ) / t1) := Int.floor_mono hle
  have hn1 : 0 ≤ Int.floor ((512 : ℚ) / t1) := Int.floor_nonneg.2 hq1
  have hn2 : 0 ≤ Int.floor ((512 : ℚ) / t2) := Int.floor_nonneg.2 hq2
  have hc' := hc
  unfold column_height window_height at hc'
  rw [if_neg (ne_of_gt ht1)] at hc'
  push_cast at hc'
  obtain ⟨hb, rfl⟩ := toSizeT_ok _ hq1 h1 hc'
  refine ⟨?_, _, column_height_of_pos t2 ht2pos (lt_of_le_of_lt hfl hb), ?_,
    Int.toNat_le_toNat hfl⟩
  · rw [truncQ_of_nonneg _ hq1, Int.toNat_of_nonneg hn1]
  · rw [truncQ_of_nonneg _ hq2, Int.toNat_of_nonneg hn2]

theorem column_height_antitone_witness :
    ((34 : Nat) : Int) = truncQ (512 / 15) ∧
      ∃ h2 : Nat, column_height (301 / 20) = .ok h2 ∧
        (h2 : Int) = truncQ (512 / (301 / 20)) ∧ h2 ≤ 34 :=
  column_height_antitone 15 (301 / 20) 34 (by norm_num) (by norm_num) column_height_at_15

end Gameloop

/-! ## The minimap loop (C8) -/

namespace Gameloop

theorem hits_window (x y a b k : Nat) (hx : x + a < 2 ^ 64) (hy : y + b < 2 ^ 64) :
    Hits 1024 512 x y a b k ↔ x + a ≤ 1024 ∧ y + b < 512 ∧ x + a + (y + b) * 1024 = k := by
  unfold Hits
  rw [Nat.mod_eq_of_lt hx, Nat.mod_eq_of_lt hy, two_pow_64]
  constructor
  · rintro ⟨h1, h2, h3⟩
    refine ⟨h1, h2, ?_⟩
    omega
  · rintro ⟨h1, h2, h3⟩
    refine ⟨h1, h2, ?_⟩
    omega

theorem minimapCell_painted (j i : Nat) (hj : j < 16) (hi : i < 16) (s : List Nat)
    (hs : s.length = 1024 * 512) :
    ∃ s', minimapCell j i s = .ok s' ∧ Painted s s' (packcolor 0 255 255) (Block j i) := by
  have hidx : (i + (j * map_width) % 2 ^ 64) % 2 ^ 64 = i + j * 16 := by
    unfold map_width
    omega
  have hlt : i + j * 16 < map.length := by rw [map_length]; omega
  unfold minimapCell
  rw [hidx, List.getElem?_eq_getElem hlt]
  simp only
  have hget : map[i + j * 16]? = some map[i + j * 16] := List.getElem?_eq_getElem hlt
  split
  · rename_i hsp
    refine ⟨s, rfl, Painted.refl _ _ _ (fun k hk => hk.1 ?_)⟩
    rw [hget, hsp]
  · rename_i hsp
    have hrw : rect_width = 32 := rfl
    have hrh : rect_height = 32 := rfl
    have hx : (i * rect_width) % 2 ^ 64 = i * 32 := by rw [hrw]; omega
    have hy : (j * rect_height) % 2 ^ 64 = j * 32 := by rw [hrh]; omega
    rw [hx, hy, hrw, hrh]
    obtain ⟨s', e, hp⟩ := draw_rectangle_total s 1024 512 (i * 32) (j * 32) 32 32
      (packcolor 0 255 255) (by omega) (by
        intro a b k ha hb hk
        rw [hits_window _ _ _ _ _ (by omega) (by omega)] at hk
        omega)
    refine ⟨s', e, hp.congr (fun k _ => ⟨fun h => ⟨?_, h⟩, fun h => h.2⟩)⟩
    rw [hget]
    intro h
    exact hsp (Option.some.inj h)

theorem block_iff (px py : Nat) (hpx : px < 1024) (hpy : py < 512) :
    (∃ j, j < 16 ∧ ∃ i, i < 16 ∧ Block j i (px + py * 1024)) ↔
      (px < 512 ∧ map[px / 32 + py / 32 * 16]? ≠ some ' ') := by
  unfold Block
  constructor
  · rintro ⟨j, hj, i, hi, hm, a, ha, b, hb, hh⟩
    rw [hits_window _ _ _ _ _ (by omega) (by omega)] at hh
    have e1 : px / 32 = i := by omega
    have e2 : py / 32 = j := by omega
    rw [e1, e2]
    exact ⟨by omega, hm⟩
  · rintro ⟨h1, h2⟩
    refine ⟨py / 32, by omega, px / 32, by omega, h2, px % 32, by omega, py % 32, by omega, ?_⟩
    rw [hits_window _ _ _ _ _ (by omega) (by omega)]
    omega

/-- C8: on the 1024x512 framebuffer the minimap loop of gameloop.cpp returns a buffer in which
every pixel `(px, py)` with `px < 512` whose map cell `(px/32, py/32)` is not a space equals
`packcolor(0,255,255)`, and every other pixel (open cells, and the right half `px >= 512`)
is unchanged. -/
theorem minimap_paints_walls (fb : List Nat) (hlen : fb.length = 1024 * 512) :
    ∃ fb', minimap fb = .ok fb' ∧ fb'.length = fb.length ∧
      ∀ px py : Nat, px < 1024 → py < 512 →
        fb'[px + py * 1024]? =
          if px < 512 ∧ map[px / 32 + py / 32 * 16]? ≠ some ' '
          then some (packcolor 0 255 255) else fb[px + py * 1024]? := by
  obtain ⟨fb', e, hp⟩ := forRange_total_painted (packcolor 0 255 255)
    (fun j k => ∃ i, i < 16 ∧ Block j i k) 16
    (fun j s => forRange map_width (minimapCell j) s) fb (by
      intro j s hj hs
      exact forRange_total_painted (packcolor 0 255 255) (Block j) 16 (minimapCell j) s
        (fun i t hi ht => minimapCell_painted j i hj hi t (by omega)))
  refine ⟨fb', e, hp.1, ?_⟩
  intro px py hpx hpy
  have h := hp.2 (px + py * 1024) (by omega)
  beta_reduce at h
  rw [block_iff px py hpx hpy] at h
  split
  · rename_i hc
    exact h.1 hc
  · rename_i hc
    exact h.2 hc

theorem minimap_paints_walls_witness :
    ∃ fb', minimap (List.replicate (1024 * 512) 0) = .ok fb' ∧
      fb'.length = (List.replicate (1024 * 512) 0).length ∧
      ∀ px py : Nat, px < 1024 → py < 512 →
        fb'[px + py * 1024]? =
          if px < 512 ∧ map[px / 32 + py / 32 * 16]? ≠ some ' '
          then some (packcolor 0 255 255) else (List.replicate (1024 * 512) 0)[px + py * 1024]? :=
  minimap_paints_walls (List.replicate (1024 * 512) 0) (List.length_replicate ..)

end Gameloop

/-! ## The wall strip (C9) -/

namespace Gameloop

theorem strip_top_eq (ch : Nat) (hch : ch < 2 ^ 63) :
    strip_top ch = (18446744073709551872 - ch / 2) % 18446744073709551616 := by
  unfold strip_top window_height
  omega

theorem strip_hits_iff (i ch px py : Nat) (hi : i < 512) (hch : ch < 2 ^ 63)
    (hpx : px < 1024) (hpy : py < 512) :
    (∃ a, a < 1 ∧ ∃ j, j < ch ∧ Hits 1024 512 (512 + i) (strip_top ch) a j (px + py * 1024)) ↔
      (px = 512 + i ∧ (256 : Int) - ((ch / 2 : Nat) : Int) ≤ (py : Int) ∧
        (py : Int) < 256 - ((ch / 2 : Nat) : Int) + ch) := by
  unfold Hits
  rw [strip_top_eq ch hch, two_pow_64]
  constructor
  · rintro ⟨a, ha, j, hj, h1, h2, h3⟩
    omega
  · rintro ⟨h1, h2, h3⟩
    refine ⟨0, by omega, py + ch / 2 - 256, by omega, ?_, ?_, ?_⟩ <;> omega

/-- C9: for every column `i < 512` and every `ch < 2^63`, the wall-strip call
`draw_rectangle(fb, 1024, 512, 512+i, (256 - ch/2) mod 2^64, 1, ch, color)` with `size_t`
wraparound returns a buffer in which exactly the pixels `(512+i, py)` with `py < 512` and
`256 - ch/2 <= py < 256 - ch/2 + ch` (as integers) are set to `color`; every other pixel is
unchanged. -/
theorem wall_strip_centred (fb : List Nat) (i ch color : Nat)
    (hlen : fb.length = 1024 * 512) (hi : i < 512) (hch : ch < 2 ^ 63) :
    (strip_top ch : Int) = (256 - ((ch / 2 : Nat) : Int)) % 2 ^ 64 ∧
    ∃ fb', draw_rectangle fb 1024 512 (512 + i) (strip_top ch) 1 ch color = .ok fb' ∧
      wall_strip fb i ch color = .ok fb' ∧
      fb'.length = fb.length ∧
      ∀ px py : Nat, px < 1024 → py < 512 →
        fb'[px + py * 1024]? =
          if px = 512 + i ∧ (256 : Int) - ((ch / 2 : Nat) : Int) ≤ (py : Int) ∧
              (py : Int) < 256 - ((ch / 2 : Nat) : Int) + ch
          then some color else fb[px + py * 1024]? := by
  refine ⟨by rw [strip_top_eq ch hch]; omega, ?_⟩
  obtain ⟨fb', e, hp⟩ := draw_rectangle_total fb 1024 512 (512 + i) (strip_top ch) 1 ch color
    (by omega) (by
      intro a j k ha _ hk
      unfold Hits at hk
      omega)
  refine ⟨fb', e, ?_, hp.1, ?_⟩
  · unfold wall_strip window_width window_height
    rw [← e]
    congr 1
    omega
  · intro px py hpx hpy
    have h := hp.2 (px + py * 1024) (by omega)
    beta_reduce at h
    rw [strip_hits_iff i ch px py hi hch hpx hpy] at h
    split
    · rename_i hc
      exact h.1 hc
    · rename_i hc
      exact h.2 hc

theorem wall_strip_centred_witness :
    (strip_top 2000 : Int) = (256 - ((2000 / 2 : Nat) : Int)) % 2 ^ 64 ∧
    ∃ fb', draw_rectangle (List.replicate (1024 * 512) 0) 1024 512 (512 + 7) (strip_top 2000)
        1 2000 9 = .ok fb' ∧
      wall_strip (List.replicate (1024 * 512) 0) 7 2000 9 = .ok fb' ∧
      fb'.length = (List.replicate (1024 * 512) 0).length ∧
      ∀ px py : Nat, px < 1024 → py < 512 →
        fb'[px + py * 1024]? =
          if px = 512 + 7 ∧ (256 : Int) - ((2000 / 2 : Nat) : Int) ≤ (py : Int) ∧
              (py : Int) < 256 - ((2000 / 2 : Nat) : Int) + (2000 : Nat)
          then some 9 else (List.replicate (1024 * 512) 0)[px + py * 1024]? :=
  wall_strip_centred (List.replicate (1024 * 512) 0) 7 2000 9 (List.length_replicate ..)
    (by decide) (by decide)

end Gameloop

/-! ## Floor trace and march (C10) -/

namespace Gameloop

/-- Scaled pixel coordinate of a map coordinate inside `[0, 16)`. -/
theorem pixel_of_cell (q : ℚ) (h0 : 0 ≤ q) (h1 : q < 16) :
    ∃ p : Nat, toSizeT (q * (rect_width : ℚ)) = .ok p ∧ toSizeT (q * 32) = .ok p ∧
      (p : Int) = truncQ (q * 32) ∧ p < 512 := by
  have hr : (rect_width : ℚ) = 32 := by norm_num [rect_width, window_width, map_width]
  have hq : 0 ≤ q * 32 := by positivity
  have hf : Int.floor (q * 32) < 512 := Int.floor_lt.2 (by push_cast; linarith)
  have hn : 0 ≤ Int.floor (q * 32) := Int.floor_nonneg.2 hq
  have e := toSizeT_of_nonneg (q * 32) hq (by omega)
  refine ⟨(Int.floor (q * 32)).toNat, by rw [hr]; exact e, e, ?_, by omega⟩
  rw [truncQ_of_nonneg _ hq]
  omega

theorem floor_trace_write (fb : List Nat) (cx cy : ℚ) (hlen : fb.length = 1024 * 512)
    (hx0 : 0 ≤ cx) (hx1 : cx < 16) (hy0 : 0 ≤ cy) (hy1 : cy < 16) :
    ∃ pix_x pix_y : Nat, toSizeT (cx * 32) = .ok pix_x ∧ toSizeT (cy * 32) = .ok pix_y ∧
      (pix_x : Int) = truncQ (cx * 32) ∧ (pix_y : Int) = truncQ (cy * 32) ∧
      pix_x < 512 ∧ pix_x + pix_y * 1024 < 1024 * 512 ∧
      floor_trace fb cx cy = .ok (fb.set (pix_x + pix_y * 1024) (packcolor 160 160 160)) := by
  obtain ⟨X, eX, eX', tX, hX⟩ := pixel_of_cell cx hx0 hx1
  obtain ⟨Y, eY, eY', tY, hY⟩ := pixel_of_cell cy hy0 hy1
  refine ⟨X, Y, eX', eY', tX, tY, hX, by omega, ?_⟩
  unfold floor_trace
  rw [eX, eY]
  have hidx : (X + (Y * window_width) % 2 ^ 64) % 2 ^ 64 = X + Y * 1024 := by
    unfold window_width
    omega
  show store fb ((X + (Y * window_width) % 2 ^ 64) % 2 ^ 64) (packcolor 160 160 160) = _
  rw [hidx]
  unfold store
  rw [if_pos (by omega)]

theorem set_left_half (fb : List Nat) (X Y c px py : Nat) (hX : X < 512) (hpx : 512 ≤ px)
    (hpx' : px < 1024) : (fb.set (X + Y * 1024) c)[px + py * 1024]? = fb[px + py * 1024]? := by
  rw [List.getElem?_set_ne]
  omega

/-- C10: a march whose samples all lie in `[0,16) x [0,16)` and never meet a wall: for each
sample `pix_x = trunc(cx*32)` and `pix_y = trunc(cy*32)` satisfy `pix_x < 512` and
`pix_x + pix_y*1024 < 1024*512`, every floor-trace write is inside the buffer, and the
march returns a buffer whose pixels with `x >= 512` (where wall strips are drawn) are all
unchanged. -/
theorem march_no_hit_keeps_right_half (i : Nat) (pts : List (ℚ × ℚ × ℚ)) (fb : List Nat)
    (hlen : fb.length = 1024 * 512)
    (hpts : ∀ p, p ∈ pts → 0 ≤ p.2.1 ∧ p.2.1 < 16 ∧ 0 ≤ p.2.2 ∧ p.2.2 < 16)
    (hopen : ∀ p, p ∈ pts → wall_test (truncQ p.2.1) (truncQ p.2.2) = .ok false) :
    (∀ p, p ∈ pts → ∃ pix_x pix_y : Nat,
      toSizeT (p.2.1 * 32) = .ok pix_x ∧ toSizeT (p.2.2 * 32) = .ok pix_y ∧
      (pix_x : Int) = truncQ (p.2.1 * 32) ∧ (pix_y : Int) = truncQ (p.2.2 * 32) ∧
      pix_x < 512 ∧ pix_x + pix_y * 1024 < 1024 * 512) ∧
    ∃ fb', march i pts fb = .ok fb' ∧ fb'.length = fb.length ∧
      ∀ px py : Nat, 512 ≤ px → px < 1024 → fb'[px + py * 1024]? = fb[px + py * 1024]? := by
  constructor
  · intro p hp
    obtain ⟨h1, h2, h3, h4⟩ := hpts p hp
    obtain ⟨X, Y, a, b, c, d, e, f, _⟩ := floor_trace_write fb p.2.1 p.2.2 hlen h1 h2 h3 h4
    exact ⟨X, Y, a, b, c, d, e, f⟩
  · induction pts generalizing fb with
    | nil => exact ⟨fb, rfl, rfl, fun _ _ _ _ => rfl⟩
    | cons p rest ih =>
      obtain ⟨t, cx, cy⟩ := p
      obtain ⟨h1, h2, h3, h4⟩ := hpts (t, cx, cy) (List.mem_cons_self _ _)
      have hw := hopen (t, cx, cy) (List.mem_cons_self _ _)
      obtain ⟨X, Y, _, _, _, _, hX, hXY, eft⟩ := floor_trace_write fb cx cy hlen h1 h2 h3 h4
      obtain ⟨fb', e', l', k'⟩ := ih (fb.set (X + Y * 1024) (packcolor 160 160 160))
        (by rw [List.length_set]; exact hlen)
        (fun q hq => hpts q (List.mem_cons_of_mem _ hq))
        (fun q hq => hopen q (List.mem_cons_of_mem _ hq))
      refine ⟨fb', ?_, by rw [l', List.length_set], ?_⟩
      · have hb : ∀ (α β : Type) (a : α) (f : α → Except Fault β),
            ((Except.ok a : Except Fault α) >>= f) = f a := fun _ _ _ _ => rfl
        rw [march, toInt_of_cell cx h1 h2, hb, toInt_of_cell cy h3 h4, hb, hw, hb, eft, hb]
        exact e'
      · intro px py hpx hpx'
        rw [k' px py hpx hpx', set_left_half fb X Y _ px py hX hpx hpx']

theorem truncQ_player_x : truncQ (11 / 2) = 5 := by
  rw [truncQ_of_nonneg _ (by norm_num), Int.floor_eq_iff]
  norm_num

theorem truncQ_player_y : truncQ (23 / 2) = 11 := by
  rw [truncQ_of_nonneg _ (by norm_num), Int.floor_eq_iff]
  norm_num

set_option maxRecDepth 100000 in
theorem wall_test_player_cell : wall_test 5 11 = .ok false := by decide

theorem march_no_hit_keeps_right_half_witness :
    (∀ p, p ∈ [((0 : ℚ), ((11 / 2 : ℚ), (23 / 2 : ℚ)))] → ∃ pix_x pix_y : Nat,
      toSizeT (p.2.1 * 32) = .ok pix_x ∧ toSizeT (p.2.2 * 32) = .ok pix_y ∧
      (pix_x : Int) = truncQ (p.2.1 * 32) ∧ (pix_y : Int) = truncQ (p.2.2 * 32) ∧
      pix_x < 512 ∧ pix_x + pix_y * 1024 < 1024 * 512) ∧
    ∃ fb', march 3 [((0 : ℚ), ((11 / 2 : ℚ), (23 / 2 : ℚ)))] (List.replicate (1024 * 512) 0)
        = .ok fb' ∧ fb'.length = (List.replicate (1024 * 512) 0).length ∧
      ∀ px py : Nat, 512 ≤ px → px < 1024 →
        fb'[px + py * 1024]? = (List.replicate (1024 * 512) 0)[px + py * 1024]? :=
  march_no_hit_keeps_right_half 3 [((0 : ℚ), ((11 / 2 : ℚ), (23 / 2 : ℚ)))]
    (List.replicate (1024 * 512) 0) (List.length_replicate ..)
    (by
      intro p hp
      rw [List.mem_singleton] at hp
      subst hp
      norm_num)
    (by
      intro p hp
      rw [List.mem_singleton] at hp
      subst hp
      show wall_test (truncQ (11 / 2)) (truncQ (23 / 2)) = .ok false
      rw [truncQ_player_x, truncQ_player_y]
      exact wall_test_player_cell)

end Gameloop

/-! ## Key handling (C11) -/

namespace Gameloop

/-- What the backward key does to a pose, over the reals. -/
theorem handle_key_s_real (x y a : ℝ) :
    handle_key Real.cos Real.sin .SDLK_s ⟨x, y, a⟩ =
      ⟨x - Real.cos a * (1 / 2), y + 1 / 2 - Real.sin a * (1 / 2), a⟩ := rfl

theorem handle_key_w_real (x y a : ℝ) :
    handle_key Real.cos Real.sin .SDLK_w ⟨x, y, a⟩ =
      ⟨x + Real.cos a * (1 / 2), y + Real.sin a * (1 / 2), a⟩ := rfl

/-- C11: evaluation of the key handling of gameloop.cpp at the pose `(0, 0, 0)` over the reals:
the backward key `SDLK_s` first executes the stray `player_y += .5`, so it yields
`y = 1/2` and not `0 - 0.5 * sin 0 = 0` (the `x` coordinate `0 - 0.5 * cos 0` and the angle
are as the forward key mirrored), and a forward key press followed by a backward key
press ends at `(0, 1/2)`, not back at `(0, 0)`. -/
theorem handle_key_s_drifts :
    (handle_key Real.cos Real.sin .SDLK_s ⟨0, 0, 0⟩).player_x = 0 - (1 / 2) * Real.cos 0 ∧
    (handle_key Real.cos Real.sin .SDLK_s ⟨0, 0, 0⟩).player_y = 1 / 2 ∧
    (handle_key Real.cos Real.sin .SDLK_s ⟨0, 0, 0⟩).player_y ≠ 0 - (1 / 2) * Real.sin 0 ∧
    (handle_key Real.cos Real.sin .SDLK_s ⟨0, 0, 0⟩).player_a = 0 ∧
    (handle_key Real.cos Real.sin .SDLK_s
      (handle_key Real.cos Real.sin .SDLK_w ⟨0, 0, 0⟩)).player_x = 0 ∧
    (handle_key Real.cos Real.sin .SDLK_s
      (handle_key Real.cos Real.sin .SDLK_w ⟨0, 0, 0⟩)).player_y = 1 / 2 := by
  rw [handle_key_w_real, handle_key_s_real, handle_key_s_real]
  simp only [Real.sin_zero, Real.cos_zero]
  norm_num

end Gameloop

/-! ## The march stays inside the map (C12) -/

theorem truncF_of_nonneg {α : Type} [LinearOrderedField α] [FloorRing α] (q : α) (h : 0 ≤ q) :
    truncF q = Int.floor q := by
  unfold truncF
  rw [if_pos h]

namespace Gameloop

set_option maxRecDepth 1000000 in
theorem border_not_space :
    ∀ c, c < 16 → ∀ r, r < 16 → (r = 0 ∨ r = 15 ∨ c = 0 ∨ c = 15) →
      map[c + r * 16]? ≠ some ' ' := by
  decide

set_option maxRecDepth 1000000 in
theorem open_cell_interior_nat :
    ∀ i, i < 16 → ∀ j, j < 16 → wall_test (i : Nat) (j : Nat) = .ok false →
      1 ≤ i ∧ i ≤ 14 ∧ 1 ≤ j ∧ j ≤ 14 := by
  decide

end Gameloop

namespace Gameloop

theorem open_cell_interior (c r : Int) (hc0 : 0 ≤ c) (hc1 : c < 16) (hr0 : 0 ≤ r) (hr1 : r < 16)
    (h : wall_test c r = .ok false) : 1 ≤ c ∧ c ≤ 14 ∧ 1 ≤ r ∧ r ≤ 14 := by
  obtain ⟨i, rfl⟩ := Int.eq_ofNat_of_zero_le hc0
  obtain ⟨j, rfl⟩ := Int.eq_ofNat_of_zero_le hr0
  have := open_cell_interior_nat i (by omega) j (by omega) h
  omega

theorem cellIndex_in_map (c r : Int) (hc0 : 0 ≤ c) (hc1 : c < 16) (hr0 : 0 ≤ r) (hr1 : r < 16) :
    cellIndex c r = (c + r * 16).toNat ∧ cellIndex c r < 256 := by
  unfold cellIndex map_width
  omega

theorem march_sample_succ (x y c s : ℝ) (k : Nat) :
    (march_sample x y c s (k + 1)).2.1 = (march_sample x y c s k).2.1 + c / 20 ∧
    (march_sample x y c s (k + 1)).2.2 = (march_sample x y c s k).2.2 + s / 20 := by
  unfold march_sample
  constructor <;> (simp only; push_cast; ring)

/-- A real coordinate whose cell index is between 1 and 14 moves by at most one step of the
march to a coordinate inside `[0, 16)`. -/
theorem step_stays (q d : ℝ) (hq : 0 ≤ q) (h1 : 1 ≤ truncF q) (h14 : truncF q ≤ 14)
    (hd : |d| ≤ 1) : 0 ≤ q + d / 20 ∧ q + d / 20 < 16 := by
  rw [truncF_of_nonneg q hq] at h1 h14
  have hlo : (1 : ℝ) ≤ q := by
    have := Int.le_floor.1 h1
    simpa using this
  have hhi : q < 15 := by
    have : Int.floor q < 15 := by omega
    have := Int.floor_lt.1 this
    simpa using this
  obtain ⟨hd1, hd2⟩ := abs_le.1 hd
  constructor <;> linarith

theorem trunc_in_map (q : ℝ) (h0 : 0 ≤ q) (h1 : q < 16) : 0 ≤ truncF q ∧ truncF q < 16 := by
  rw [truncF_of_nonneg q h0]
  exact ⟨Int.floor_nonneg.2 h0, Int.floor_lt.2 (by simpa using h1)⟩

/-- The coordinates of every tested point stay in `[0, 16)` while the march has not stopped. -/
theorem march_sample_in_map (x y c s : ℝ) (hc : |c| ≤ 1) (hs : |s| ≤ 1)
    (hx0 : 0 ≤ x) (hx1 : x < 16) (hy0 : 0 ≤ y) (hy1 : y < 16) (k : Nat)
    (hgo : ∀ k', k' < k →
      wall_test (truncF (march_sample x y c s k').2.1) (truncF (march_sample x y c s k').2.2)
        = .ok false) :
    (0 ≤ (march_sample x y c s k).2.1 ∧ (march_sample x y c s k).2.1 < 16) ∧
      (0 ≤ (march_sample x y c s k).2.2 ∧ (march_sample x y c s k).2.2 < 16) := by
  induction k with
  | zero =>
    unfold march_sample
    simp only [Nat.cast_zero, zero_mul, add_zero]
    exact ⟨⟨hx0, hx1⟩, ⟨hy0, hy1⟩⟩
  | succ m ih =>
    obtain ⟨⟨a0, a1⟩, ⟨b0, b1⟩⟩ := ih (fun k' hk' => hgo k' (Nat.lt_succ_of_lt hk'))
    have hw := hgo m (Nat.lt_succ_self m)
    obtain ⟨ta0, ta1⟩ := trunc_in_map _ a0 a1
    obtain ⟨tb0, tb1⟩ := trunc_in_map _ b0 b1
    obtain ⟨i1, i2, j1, j2⟩ := open_cell_interior _ _ ta0 ta1 tb0 tb1 hw
    obtain ⟨e1, e2⟩ := march_sample_succ x y c s m
    rw [e1, e2]
    exact ⟨step_stays _ c a0 i1 i2 hc, step_stays _ s b0 j1 j2 hs⟩

/-- C12: the map literal of gameloop.cpp is enclosed by walls (every cell of row 0, row 15,
column 0 and column 15 is not a space), and over the reals, for every player position inside
the map and every ray angle, every point the fixed-step march tests (sample `k` is tested
when the samples before it were all open, which for `k >= 1` includes the player's own cell)
has truncated cell indices in `[0,16) x [0,16)`, so the map index `int(cx) + int(cy)*16`
equals `c + 16 r` and is below 256. -/
theorem march_stays_in_map (x y θ : ℝ)
    (hx0 : 0 ≤ x) (hx1 : x < 16) (hy0 : 0 ≤ y) (hy1 : y < 16) :
    (∀ c r : Nat, c < 16 → r < 16 → (r = 0 ∨ r = 15 ∨ c = 0 ∨ c = 15) →
      ∃ ch, map[c + r * 16]? = some ch ∧ ch ≠ ' ') ∧
    ∀ k : Nat,
      (∀ k', k' < k →
        wall_test (truncF (march_sample x y (Real.cos θ) (Real.sin θ) k').2.1)
          (truncF (march_sample x y (Real.cos θ) (Real.sin θ) k').2.2) = .ok false) →
      0 ≤ truncF (march_sample x y (Real.cos θ) (Real.sin θ) k).2.1 ∧
      truncF (march_sample x y (Real.cos θ) (Real.sin θ) k).2.1 < 16 ∧
      0 ≤ truncF (march_sample x y (Real.cos θ) (Real.sin θ) k).2.2 ∧
      truncF (march_sample x y (Real.cos θ) (Real.sin θ) k).2.2 < 16 ∧
      cellIndex (truncF (march_sample x y (Real.cos θ) (Real.sin θ) k).2.1)
          (truncF (march_sample x y (Real.cos θ) (Real.sin θ) k).2.2) =
        (truncF (march_sample x y (Real.cos θ) (Real.sin θ) k).2.1 +
          truncF (march_sample x y (Real.cos θ) (Real.sin θ) k).2.2 * 16).toNat ∧
      cellIndex (truncF (march_sample x y (Real.cos θ) (Real.sin θ) k).2.1)
          (truncF (march_sample x y (Real.cos θ) (Real.sin θ) k).2.2) < 256 := by
  constructor
  · intro c r hc hr hb
    have hlt : c + r * 16 < map.length := by rw [map_length]; omega
    refine ⟨map[c + r * 16], List.getElem?_eq_getElem hlt, fun h => ?_⟩
    apply border_not_space c hc r hr hb
    rw [List.getElem?_eq_getElem hlt, h]
  · intro k hgo
    obtain ⟨⟨a0, a1⟩, ⟨b0, b1⟩⟩ := march_sample_in_map x y (Real.cos θ) (Real.sin θ)
      (Real.abs_cos_le_one θ) (Real.abs_sin_le_one θ) hx0 hx1 hy0 hy1 k hgo
    obtain ⟨ta0, ta1⟩ := trunc_in_map _ a0 a1
    obtain ⟨tb0, tb1⟩ := trunc_in_map _ b0 b1
    obtain ⟨e, l⟩ := cellIndex_in_map _ _ ta0 ta1 tb0 tb1
    exact ⟨ta0, ta1, tb0, tb1, e, l⟩

theorem truncF_player_x : truncF (11 / 2 : ℝ) = 5 := by
  rw [truncF_of_nonneg _ (by norm_num), Int.floor_eq_iff]
  norm_num

theorem truncF_player_y : truncF (23 / 2 : ℝ) = 11 := by
  rw [truncF_of_nonneg _ (by norm_num), Int.floor_eq_iff]
  norm_num

theorem march_stays_in_map_witness :
    0 ≤ truncF (march_sample (11 / 2 : ℝ) (23 / 2) (Real.cos 0) (Real.sin 0) 1).2.1 ∧
    truncF (march_sample (11 / 2 : ℝ) (23 / 2) (Real.cos 0) (Real.sin 0) 1).2.1 < 16 ∧
    0 ≤ truncF (march_sample (11 / 2 : ℝ) (23 / 2) (Real.cos 0) (Real.sin 0) 1).2.2 ∧
    truncF (march_sample (11 / 2 : ℝ) (23 / 2) (Real.cos 0) (Real.sin 0) 1).2.2 < 16 ∧
    cellIndex (truncF (march_sample (11 / 2 : ℝ) (23 / 2) (Real.cos 0) (Real.sin 0) 1).2.1)
        (truncF (march_sample (11 / 2 : ℝ) (23 / 2) (Real.cos 0) (Real.sin 0) 1).2.2) =
      (truncF (march_sample (11 / 2 : ℝ) (23 / 2) (Real.cos 0) (Real.sin 0) 1).2.1 +
        truncF (march_sample (11 / 2 : ℝ) (23 / 2) (Real.cos 0) (Real.sin 0) 1).2.2 * 16).toNat ∧
    cellIndex (truncF (march_sample (11 / 2 : ℝ) (23 / 2) (Real.cos 0) (Real.sin 0) 1).2.1)
        (truncF (march_sample (11 / 2 : ℝ) (23 / 2) (Real.cos 0) (Real.sin 0) 1).2.2) < 256 :=
  (march_stays_in_map (11 / 2) (23 / 2) 0 (by norm_num) (by norm_num) (by norm_num)
    (by norm_num)).2 1 (by
      intro k' hk'
      have hk0 : k' = 0 := by omega
      subst hk0
      have e1 : (march_sample (11 / 2 : ℝ) (23 / 2) (Real.cos 0) (Real.sin 0) 0).2.1 = 11 / 2 := by
        simp [march_sample]
      have e2 : (march_sample (11 / 2 : ℝ) (23 / 2) (Real.cos 0) (Real.sin 0) 0).2.2 = 23 / 2 := by
        simp [march_sample]
      rw [e1, e2, truncF_player_x, truncF_player_y]
      exact wall_test_player_cell)

end Gameloop

/-! ## The minimap blocks of rangefinder.cpp (C13) -/

/-- Row-major indices of two in-row pixels agree only when the pixels agree. -/
theorem index_inj (W cx cy px py : Nat) (hcx : cx < W) (hpx : px < W) :
    cx + cy * W = px + py * W ↔ cx = px ∧ cy = py := by
  constructor
  · intro h
    have hm := congrArg (fun n => n % W) h
    have hd := congrArg (fun n => n / W) h
    simp only [Nat.add_mul_mod_self_right, Nat.mod_eq_of_lt hcx, Nat.mod_eq_of_lt hpx] at hm
    have hW : 0 < W := by omega
    simp only [Nat.add_mul_div_right _ _ hW, Nat.div_eq_of_lt hcx, Nat.div_eq_of_lt hpx,
      Nat.zero_add] at hd
    exact ⟨hm, hd⟩
  · rintro ⟨rfl, rfl⟩
    rfl

theorem index_lt (W H cx cy : Nat) (hcx : cx < W) (hcy : cy < H) : cx + cy * W < W * H := by
  have : (cy + 1) * W ≤ H * W := Nat.mul_le_mul_right W hcy
  rw [Nat.mul_comm W H]
  nlinarith

/-- A block of a grid of `M` cells of size `W / M` lies inside `[0, W)`. -/
theorem block_inside (W M i a : Nat) (hi : i < M) (ha : a < W / M) : i * (W / M) + a < W := by
  have h1 : (i + 1) * (W / M) ≤ M * (W / M) := Nat.mul_le_mul_right _ hi
  have h2 : M * (W / M) ≤ W := Nat.mul_div_le W M
  nlinarith

namespace Rangefinder

theorem assertCell_painted (W H x y c i j : Nat) (s : List Nat)
    (hlen : s.length = W * H) (hfit : W * H < 2 ^ 64)
    (hx : x + i < W) (hy : y + j < H) :
    ∃ s', drawCell W H x y c i j s = .ok s' ∧
      Painted s s' c (fun k => k = (x + i) + (y + j) * W) := by
  have hidx := index_lt W H (x + i) (y + j) hx hy
  have hW : W < 2 ^ 64 := by
    have : W * 1 ≤ W * H := Nat.mul_le_mul_left W (by omega)
    omega
  have hH : H < 2 ^ 64 := by
    have : 1 * H ≤ W * H := Nat.mul_le_mul_right H (by omega)
    omega
  unfold drawCell
  simp only
  rw [Nat.mod_eq_of_lt (show x + i < 2 ^ 64 by omega),
    Nat.mod_eq_of_lt (show y + j < 2 ^ 64 by omega), if_pos ⟨hx, hy⟩,
    Nat.mod_eq_of_lt (show x + i + (y + j) * W < 2 ^ 64 by omega)]
  unfold store
  rw [if_pos (by omega)]
  exact ⟨_, rfl, Painted.set s c _ (by omega)⟩

/-- When every cell of the rectangle is inside the image, no assertion fails and exactly the
rectangle is repainted. -/
theorem draw_rectangle_inside (img : List Nat) (W H x y rw rh c : Nat)
    (hlen : img.length = W * H) (hfit : W * H < 2 ^ 64)
    (hin : ∀ i j, i < rw → j < rh → x + i < W ∧ y + j < H) :
    ∃ img', draw_rectangle img W H x y rw rh c = .ok img' ∧
      Painted img img' c
        (fun k => ∃ i, i < rw ∧ ∃ j, j < rh ∧ k = (x + i) + (y + j) * W) := by
  unfold draw_rectangle
  rw [if_neg (not_not.2 (by rw [hlen, Nat.mod_eq_of_lt hfit]))]
  refine forRange_total_painted c (fun i k => ∃ j, j < rh ∧ k = (x + i) + (y + j) * W) rw _ img ?_
  intro i s hi hs
  refine forRange_total_painted c (fun j k => k = (x + i) + (y + j) * W) rh _ s ?_
  intro j t hj ht
  exact assertCell_painted W H x y c i j t (by rw [ht, hs, hlen]) hfit (hin i j hi hj).1 (hin i j hi hj).2

/-- C13: in rangefinder.cpp, for a buffer of length `W*H`, `rect_width = W / Mw`,
`rect_height = H / Mh` and every cell `i < Mw`, `j < Mh` (so `Mw` and `Mh` are positive),
every target pixel of `draw_rectangle(image, W, H, i*rect_width, j*rect_height, rect_width,
rect_height, color)` satisfies `cx < W` and `cy < H`; the call returns without a failed
assertion, sets exactly that block of pixels to `color` and leaves all others unchanged. -/
theorem minimap_block_in_bounds (fb : List Nat) (W H Mw Mh i j color : Nat)
    (hlen : fb.length = W * H) (hfit : fb.length < 2 ^ 64) (hi : i < Mw) (hj : j < Mh) :
    (∀ a b, a < W / Mw → b < H / Mh → i * (W / Mw) + a < W ∧ j * (H / Mh) + b < H) ∧
    ∃ fb', draw_rectangle fb W H (i * (W / Mw)) (j * (H / Mh)) (W / Mw) (H / Mh) color
        = .ok fb' ∧
      fb'.length = fb.length ∧
      ∀ px py : Nat, px < W → py < H →
        fb'[px + py * W]? =
          if i * (W / Mw) ≤ px ∧ px < i * (W / Mw) + W / Mw ∧
              j * (H / Mh) ≤ py ∧ py < j * (H / Mh) + H / Mh
          then some color else fb[px + py * W]? := by
  have hin : ∀ a b, a < W / Mw → b < H / Mh →
      i * (W / Mw) + a < W ∧ j * (H / Mh) + b < H :=
    fun a b ha hb => ⟨block_inside W Mw i a hi ha, block_inside H Mh j b hj hb⟩
  refine ⟨hin, ?_⟩
  obtain ⟨fb', e, hp⟩ := draw_rectangle_inside fb W H (i * (W / Mw)) (j * (H / Mh))
    (W / Mw) (H / Mh) color hlen (by omega) hin
  refine ⟨fb', e, hp.1, ?_⟩
  intro px py hpx hpy
  have hk : px + py * W < fb.length := by rw [hlen]; exact index_lt W H px py hpx hpy
  have h := hp.2 _ hk
  beta_reduce at h
  split
  · rename_i hc
    refine h.1 ⟨px - i * (W / Mw), by omega, py - j * (H / Mh), by omega, ?_⟩
    have e1 : i * (W / Mw) + (px - i * (W / Mw)) = px := by omega
    have e2 : j * (H / Mh) + (py - j * (H / Mh)) = py := by omega
    rw [e1, e2]
  · rename_i hc
    refine h.2 ?_
    rintro ⟨a, ha, b, hb, hab⟩
    apply hc
    have hcx := (hin a b ha hb).1
    obtain ⟨e1, e2⟩ := (index_inj W _ _ px py hcx hpx).1 hab.symm
    omega

end Rangefinder

theorem Rangefinder.minimap_block_in_bounds_witness :
    (∀ a b, a < 512 / 16 → b < 512 / 16 → 3 * (512 / 16) + a < 512 ∧ 4 * (512 / 16) + b < 512) ∧
    ∃ fb', Rangefinder.draw_rectangle (List.replicate (512 * 512) 255) 512 512
        (3 * (512 / 16)) (4 * (512 / 16)) (512 / 16) (512 / 16) 7 = .ok fb' ∧
      fb'.length = (List.replicate (512 * 512) 255).length ∧
      ∀ px py : Nat, px < 512 → py < 512 →
        fb'[px + py * 512]? =
          if 3 * (512 / 16) ≤ px ∧ px < 3 * (512 / 16) + 512 / 16 ∧
              4 * (512 / 16) ≤ py ∧ py < 4 * (512 / 16) + 512 / 16
          then some 7 else (List.replicate (512 * 512) 255)[px + py * 512]? :=
  Rangefinder.minimap_block_in_bounds (List.replicate (512 * 512) 255) 512 512 16 16 3 4 7
    (List.length_replicate ..) (by rw [List.length_replicate]; decide) (by decide) (by decide)
